import Mathlib

/-!
Verification of the feature-signature aggregation engine of
`dynophore_feature_analysis.py` (DurdagiLab/dynophore_analysis).

The script is embedded shallowly:

* a parsed line of `trajrmsd.dat` (after `pd.read_csv(..., comment='#')`
  has removed comment lines) is a `TrajRow`;
* a row of the merged dataframe `rmsd_df` is a `FrameRecord`;
* the per-frame feature tables are `FeatureSource`s: the file I/O,
  delimiter sniffing and column selection are abstracted into an
  `Except` value holding either the raw feature-label strings of the
  table or the error message of the raised exception;
* python floats are modelled as exact rationals (`ℚ`); `round(x, n)`
  is modelled as decimal rounding half-to-even on the exact value
  (`pyRound`), implemented on numerator and denominator so that it
  evaluates by kernel reduction;
* `pandas` dataframe operations are modelled on lists, in the order the
  script applies them.  The `value_counts()` / `sort_values` /
  `nlargest` orderings are modelled with the stable
  `List.insertionSort` (`nlargest` is stable by contract,
  `kind='mergesort'`; the two `sort_values`-based orders are stable
  whenever the underlying numpy quicksort degenerates to insertion
  sort, and no theorem below depends on their tie order);
  `Series.idxmin` returns the first position attaining the minimum
  (`minRmsdFirst`); a python `dict` assignment keeps the position of an
  existing key (`insertMap`).
-/

/-- Configuration constant `top_n = 10` (script line 25). -/
def top_n : Nat := 10

/-- Configuration constant `exclude_lengths = [1, 2, 3]` (script line 26). -/
def exclude_lengths : List Nat := [1, 2, 3]

/-- The sentinel frame identifier removed from the merged set:
`rmsd_df = rmsd_df[rmsd_df["Frame_ID"] != 5002]` (script line 77). -/
def excluded_frame_id : Int := 5002

/-- One parsed non-comment data row of `trajrmsd.dat`:
a `Frame` counter and an `RMSD` value (script line 72). -/
structure TrajRow where
  frame : Int
  rmsd : ℚ
deriving DecidableEq

/-- One row of the merged dataframe `rmsd_df` (script lines 72-78):
`Frame_ID`, `RMSD` and the `Features` signature string
(`"-"` when the frame is unmatched). -/
structure FrameRecord where
  frame_id : Int
  rmsd : ℚ
  features : String
deriving DecidableEq

/-- Lookup in the association-list model of the python dict
`frame_feature_map` (used by `.map(frame_feature_map)`, script line 78). -/
def lookupSig (m : List (Int × String)) (k : Int) : Option String :=
  (m.find? (fun p => p.1 == k)).map Prod.snd

/-- The merged frame-record set `rmsd_df` (script lines 72-78):
`iloc[1:]` drops the first parsed data row, `Frame_ID = Frame + 1`,
rows with `Frame_ID == 5002` are removed, and `Features` is the mapped
signature with `fillna('-')` for unmatched frames. -/
def rmsd_records (rows : List TrajRow) (m : List (Int × String)) : List FrameRecord :=
  (((rows.drop 1).map (fun t => (t.frame + 1, t.rmsd))).filter
      (fun p => p.1 != excluded_frame_id)).map
    (fun p => { frame_id := p.1, rmsd := p.2, features := (lookupSig m p.1).getD "-" })

/-- Python `re.sub` removing digit runs (script line 66): remove every
decimal-digit character from a label. -/
def stripDigits (s : String) : String := String.mk (s.data.filter (fun c => !c.isDigit))

/-- Signature normalisation (script line 66): strip the digits of every raw
label and concatenate the results with no separator. -/
def signatureOf (labels : List String) : String := String.join (labels.map stripDigits)

/-- One per-frame feature-table source `<digits>_hypo_features_table.csv`.
`sourceId` is the file path printed in warnings, `frame_id` the integer
parsed from the digits of the file name (script lines 56-58), and `parse`
the outcome of opening and parsing the table (script lines 60-65,
abstracting the file I/O, delimiter sniffing and column choice): the raw
strings of the feature-label column on success, or the exception message. -/
structure FeatureSource where
  sourceId : String
  frame_id : Int
  parse : Except String (List String)

/-- Whether a source parses successfully (no exception on script lines 60-67). -/
def isOkSource (s : FeatureSource) : Bool :=
  match s.parse with
  | .ok _ => true
  | .error _ => false

/-- The warning a failing source produces (script line 69): the source
identifier and the failure reason. -/
def warnOf (s : FeatureSource) : Option (String × String) :=
  match s.parse with
  | .ok _ => none
  | .error e => some (s.sourceId, e)

/-- The map entry a successful source produces (script line 67). -/
def okPair (s : FeatureSource) : Option (Int × String) :=
  match s.parse with
  | .ok labels => some (s.frame_id, signatureOf labels)
  | .error _ => none

/-- Python dict assignment `frame_feature_map[frame_id] = features_clean`
(script line 67) on the association-list model: an existing key keeps its
position and receives the new value, a new key is appended. -/
def insertMap (m : List (Int × String)) (k : Int) (v : String) : List (Int × String) :=
  if m.any (fun p => p.1 == k) then m.map (fun p => if p.1 == k then (k, v) else p)
  else m ++ [(k, v)]

/-- State of the feature-table loop: the dict under construction and the
warnings printed so far. -/
structure LoadState where
  map : List (Int × String)
  warnings : List (String × String)
deriving DecidableEq

/-- Loop body of the feature-table loop (script lines 55-69): a source that
parses successfully stores its digit-stripped signature under its frame id;
a parse failure appends a warning naming the source and the reason, and the
loop continues with the next source. -/
def loadStep (st : LoadState) (s : FeatureSource) : LoadState :=
  match s.parse with
  | .ok labels => { st with map := insertMap st.map s.frame_id (signatureOf labels) }
  | .error e => { st with warnings := st.warnings ++ [(s.sourceId, e)] }

/-- The feature-table loop run from a given state. -/
def loadAll (st : LoadState) : List FeatureSource → LoadState
  | [] => st
  | s :: ss => loadAll (loadStep st s) ss

/-- The feature-table loader (script lines 54-69) over all sources. -/
def frame_feature_map (sources : List FeatureSource) : LoadState :=
  loadAll ⟨[], []⟩ sources

/-- Insert a key into a key list if it is not already present (the key-set
evolution of a python dict assignment). -/
def insertNew {α : Type _} [DecidableEq α] (ks : List α) (k : α) : List α :=
  if k ∈ ks then ks else ks ++ [k]

/-- The key column of the association-list dict model. -/
def keysOf (m : List (Int × String)) : List Int := m.map Prod.fst

/-- Fold inserting a list of pairs into the dict model. -/
def insertPairs (m : List (Int × String)) (ps : List (Int × String)) : List (Int × String) :=
  ps.foldl (fun acc p => insertMap acc p.1 p.2) m

/-- Deduplication keeping the FIRST occurrence of each element, in order of
first appearance (the key order of `value_counts()` before its sort). -/
def dedupFirst {α : Type _} [DecidableEq α] (l : List α) : List α :=
  l.foldl insertNew []

/-- Integer rounding of the fraction `p / q` (with `q > 0`) to the nearest
integer, ties to even: the rounding mode of python `round`. -/
def roundHalfEven (p q : Int) : Int :=
  let f := Int.ediv p q
  let r2 := 2 * (p - f * q)
  if r2 < q then f
  else if q < r2 then f + 1
  else if Int.emod f 2 = 0 then f else f + 1

/-- Python `round(x, n)` on the exact rational value of `x`: decimal
rounding half-to-even at `n` decimal places (script lines 98 and 102). -/
def pyRound (x : ℚ) (n : Nat) : ℚ :=
  mkRat (roundHalfEven (x.num * (10 : Int) ^ n) (x.den : Int)) (10 ^ n)

/-- Row of `feature_counts` (script lines 82-85): a distinct matched
signature with its frame count, its percentage over ALL frames
(`total_frames = len(rmsd_df)`, script line 81, which includes unmatched
frames) and the character length of the signature. -/
structure CountRec where
  features : String
  count : Nat
  percent : ℚ
  length : Nat
deriving DecidableEq

/-- Descending order by a key (`ascending=False` sorts of the script). -/
def descBy {α : Type _} {β : Type _} [LinearOrder β] (key : α → β) (a b : α) : Prop :=
  key b ≤ key a

instance {α : Type _} {β : Type _} [LinearOrder β] (key : α → β) :
    IsTotal α (descBy key) :=
  ⟨fun a b => le_total (key b) (key a)⟩

instance {α : Type _} {β : Type _} [LinearOrder β] (key : α → β) :
    IsTrans α (descBy key) :=
  ⟨fun _ _ _ h1 h2 => le_trans h2 h1⟩

instance {α : Type _} {β : Type _} [LinearOrder β] (key : α → β) :
    DecidableRel (descBy key) :=
  fun a b => inferInstanceAs (Decidable (key b ≤ key a))

/-- The matched signature column: `rmsd_df[rmsd_df['Features'] != '-']
['Features']` (script line 82). -/
def matchedSigs (rs : List FrameRecord) : List String :=
  (rs.filter (fun r => r.features != "-")).map FrameRecord.features

/-- `feature_counts` (script lines 81-85): `value_counts()` of the matched
signatures (distinct signatures with multiplicities, ordered by count
descending), with `Percent = 100 * Count / total_frames` where
`total_frames = len(rmsd_df)` counts every frame record, matched or not,
and `Length = len(features)`. -/
def feature_counts (rs : List FrameRecord) : List CountRec :=
  List.insertionSort (descBy CountRec.count)
    ((dedupFirst (matchedSigs rs)).map (fun s =>
      { features := s,
        count := (matchedSigs rs).count s,
        percent := mkRat (100 * ((matchedSigs rs).count s : Int)) rs.length,
        length := s.length }))

/-- `Series.idxmin` (script line 95) on a record list: the FIRST record
attaining the minimal `rmsd`, `none` on the empty list. -/
def minRmsdFirst : List FrameRecord → Option FrameRecord
  | [] => none
  | r :: rs =>
    match minRmsdFirst rs with
    | none => some r
    | some b => if b.rmsd < r.rmsd then some b else some r

/-- Row of `summary_records` (script lines 91-103): `Lowest_RMSD` and
`Percent` are rounded (`round(..., 3)` and `round(..., 1)`), `Frame` is
the `Frame_ID` of the row selected by `idxmin`. -/
structure SummaryRec where
  features : String
  lowest_rmsd : ℚ
  frame : Int
  count : Nat
  length : Nat
  percent : ℚ
deriving DecidableEq

/-- `subset = rmsd_df[rmsd_df['Features'] == feat]` (script line 94). -/
def subsetRows (rs : List FrameRecord) (sig : String) : List FrameRecord :=
  rs.filter (fun r => r.features == sig)

/-- `summary_records` (script lines 91-103): one summary row per
`feature_counts` row. `idxmin` on a nonempty subset always succeeds; the
`none` branch of `Option.map` is unreachable because every counted
signature has at least one member row. -/
def summary_records (rs : List FrameRecord) : List SummaryRec :=
  (feature_counts rs).filterMap (fun e =>
    (minRmsdFirst (subsetRows rs e.features)).map (fun m =>
      { features := e.features,
        lowest_rmsd := pyRound m.rmsd 3,
        frame := m.frame_id,
        count := e.count,
        length := e.features.length,
        percent := pyRound e.percent 1 }))

/-- `summary_df = pd.DataFrame(summary_records).sort_values(by='Count',
ascending=False)` (script line 104). -/
def summary_df (rs : List FrameRecord) : List SummaryRec :=
  List.insertionSort (descBy SummaryRec.count) (summary_records rs)

/-- `nlargest(n, 'Percent')` (script line 135): the `n` rows with the
largest `Percent`, ordered by `Percent` descending, ties kept in row
order (`keep='first'`, stable `kind='mergesort'` selection). -/
def nlargestPercent (n : Nat) (l : List SummaryRec) : List SummaryRec :=
  (List.insertionSort (descBy SummaryRec.percent) l).take n

/-- `plot_df = summary_df[~summary_df['Length'].isin(exclude_lengths)]
.nlargest(top_n, 'Percent')` (script line 135). -/
def plot_df (rs : List FrameRecord) : List SummaryRec :=
  nlargestPercent top_n
    ((summary_df rs).filter (fun g => !(exclude_lengths.contains g.length)))

/-- C10: the first non-comment data row of the trajectory series is
discarded unconditionally (`rmsd_df.iloc[1:]`, script line 73): the merged
record set does not depend on the content of the first parsed row, and a
trajectory with exactly one data row yields an empty record set. -/
theorem first_row_dropped (r r' : TrajRow) (rows : List TrajRow)
    (m : List (Int × String)) :
    rmsd_records (r :: rows) m = rmsd_records (r' :: rows) m ∧
    rmsd_records [r] m = [] :=
  ⟨rfl, rfl⟩

/-- C7: the sentinel frame identifier 5002 never appears as a `frame_id`
in the merged record set (script line 77). -/
theorem excluded_frame_never_in_records (rows : List TrajRow)
    (m : List (Int × String)) (rec : FrameRecord)
    (hrec : rec ∈ rmsd_records rows m) : rec.frame_id ≠ 5002 := by
  unfold rmsd_records at hrec
  obtain ⟨p, hp, rfl⟩ := List.mem_map.mp hrec
  have hfilt := (List.mem_filter.mp hp).2
  simp only [bne_iff_ne, ne_eq, decide_eq_true_eq] at hfilt
  exact hfilt

/-- Witness for `excluded_frame_never_in_records` at a concrete trajectory. -/
theorem excluded_frame_never_in_records_witness :
    (({ frame_id := 1, rmsd := 7, features := "-" } : FrameRecord)).frame_id ≠ 5002 :=
  excluded_frame_never_in_records [⟨9, 9⟩, ⟨0, 7⟩] []
    { frame_id := 1, rmsd := 7, features := "-" } (by decide)

/-- C6: the merge applies a pure +1 shift: every merged record stems from
a trajectory entry at some index `k ≥ 1` and its `frame_id` is that
entry's frame counter plus one (`Frame_ID = Frame + 1`, script line 76);
in particular, when the entry at zero-based index `k` carries the
zero-based counter `k`, the record has `frame_id = k + 1`. -/
theorem frame_id_eq_frame_add_one (rows : List TrajRow) (m : List (Int × String))
    (rec : FrameRecord) (hrec : rec ∈ rmsd_records rows m) :
    ∃ k, ∃ h : k < rows.length, 1 ≤ k ∧
      rec.frame_id = (rows.get ⟨k, h⟩).frame + 1 ∧
      rec.rmsd = (rows.get ⟨k, h⟩).rmsd ∧
      ((rows.get ⟨k, h⟩).frame = (k : Int) → rec.frame_id = (k : Int) + 1) := by
  match rows with
  | [] => exact absurd hrec (by simp [rmsd_records])
  | r0 :: rest =>
    unfold rmsd_records at hrec
    obtain ⟨p, hp, rfl⟩ := List.mem_map.mp hrec
    have hpmem := (List.mem_filter.mp hp).1
    obtain ⟨t, ht, hpt⟩ := List.mem_map.mp hpmem
    have ht' : t ∈ rest := by simpa using ht
    obtain ⟨j, hj⟩ := List.mem_iff_get.mp ht'
    refine ⟨j.val + 1, by simp, Nat.le_add_left 1 _, ?_, ?_, ?_⟩
    · have : (r0 :: rest).get ⟨j.val + 1, by simp⟩ = t := by
        simpa [List.get] using hj
      rw [this, ← hpt]
    · have : (r0 :: rest).get ⟨j.val + 1, by simp⟩ = t := by
        simpa [List.get] using hj
      rw [this, ← hpt]
    · intro hk
      have : (r0 :: rest).get ⟨j.val + 1, by simp⟩ = t := by
        simpa [List.get] using hj
      rw [this] at hk
      rw [← hpt]
      simp [hk]

/-- Witness for `frame_id_eq_frame_add_one` at a concrete trajectory. -/
theorem frame_id_eq_frame_add_one_witness :
    ∃ k, ∃ h : k < ([⟨5, 0⟩, ⟨0, 7⟩] : List TrajRow).length, 1 ≤ k ∧
      (({ frame_id := 1, rmsd := 7, features := "-" } : FrameRecord)).frame_id =
        (([⟨5, 0⟩, ⟨0, 7⟩] : List TrajRow).get ⟨k, h⟩).frame + 1 ∧
      (({ frame_id := 1, rmsd := 7, features := "-" } : FrameRecord)).rmsd =
        (([⟨5, 0⟩, ⟨0, 7⟩] : List TrajRow).get ⟨k, h⟩).rmsd ∧
      ((([⟨5, 0⟩, ⟨0, 7⟩] : List TrajRow).get ⟨k, h⟩).frame = (k : Int) →
        (({ frame_id := 1, rmsd := 7, features := "-" } : FrameRecord)).frame_id =
          (k : Int) + 1) :=
  frame_id_eq_frame_add_one [⟨5, 0⟩, ⟨0, 7⟩] []
    { frame_id := 1, rmsd := 7, features := "-" } (by decide)

theorem loadAll_warnings (st : LoadState) (ss : List FeatureSource) :
    (loadAll st ss).warnings = st.warnings ++ ss.filterMap warnOf := by
  induction ss generalizing st with
  | nil => simp [loadAll]
  | cons s ss ih =>
    show (loadAll (loadStep st s) ss).warnings = _
    rw [ih]
    cases hp : s.parse <;>
      simp [loadStep, hp, warnOf, List.filterMap_cons]

theorem loadAll_map (st : LoadState) (ss : List FeatureSource) :
    (loadAll st ss).map = insertPairs st.map (ss.filterMap okPair) := by
  induction ss generalizing st with
  | nil => simp [loadAll, insertPairs]
  | cons s ss ih =>
    show (loadAll (loadStep st s) ss).map = _
    rw [ih]
    cases hp : s.parse <;>
      simp [loadStep, hp, okPair, List.filterMap_cons, insertPairs]

theorem isOkSource_of_ok {s : FeatureSource} {ls : List String}
    (hp : s.parse = .ok ls) : isOkSource s = true := by
  simp [isOkSource, hp]

theorem isOkSource_of_error {s : FeatureSource} {e : String}
    (hp : s.parse = .error e) : isOkSource s = false := by
  simp [isOkSource, hp]

theorem okPair_of_ok {s : FeatureSource} {ls : List String}
    (hp : s.parse = .ok ls) : okPair s = some (s.frame_id, signatureOf ls) := by
  simp [okPair, hp]

theorem okPair_of_error {s : FeatureSource} {e : String}
    (hp : s.parse = .error e) : okPair s = none := by
  simp [okPair, hp]

theorem okPair_filter_ok (ss : List FeatureSource) :
    (ss.filter (fun s => isOkSource s)).filterMap okPair = ss.filterMap okPair := by
  induction ss with
  | nil => rfl
  | cons s ss ih =>
    cases hp : s.parse with
    | ok ls =>
      simp [List.filter_cons, isOkSource_of_ok hp, List.filterMap_cons, okPair_of_ok hp, ih]
    | error e =>
      simp [List.filter_cons, isOkSource_of_error hp, List.filterMap_cons,
        okPair_of_error hp, ih]

theorem okPair_fst (ss : List FeatureSource) :
    (ss.filterMap okPair).map Prod.fst =
      (ss.filter (fun s => isOkSource s)).map FeatureSource.frame_id := by
  induction ss with
  | nil => rfl
  | cons s ss ih =>
    cases hp : s.parse with
    | ok ls =>
      simp [List.filter_cons, isOkSource_of_ok hp, List.filterMap_cons, okPair_of_ok hp, ih]
    | error e =>
      simp [List.filter_cons, isOkSource_of_error hp, List.filterMap_cons,
        okPair_of_error hp, ih]

theorem keysOf_insertMap (m : List (Int × String)) (k : Int) (v : String) :
    keysOf (insertMap m k v) = insertNew (keysOf m) k := by
  unfold insertMap insertNew keysOf
  by_cases h : k ∈ m.map Prod.fst
  · have hany : m.any (fun p => p.1 == k) = true := by
      rw [List.any_eq_true]
      obtain ⟨p, hp, hpk⟩ := List.mem_map.mp h
      exact ⟨p, hp, by simp [hpk]⟩
    rw [if_pos hany, if_pos h, List.map_map]
    refine List.map_congr_left (fun p _ => ?_)
    by_cases hpk : p.1 = k
    · simp [hpk]
    · simp [hpk]
  · have hany : m.any (fun p => p.1 == k) = false := by
      rw [List.any_eq_false]
      intro p hp
      simp only [beq_iff_eq]
      intro hpk
      exact h (List.mem_map.mpr ⟨p, hp, hpk⟩)
    rw [if_neg (by simp [hany]), if_neg h]
    simp

theorem keysOf_insertPairs (m : List (Int × String)) (ps : List (Int × String)) :
    keysOf (insertPairs m ps) = (ps.map Prod.fst).foldl insertNew (keysOf m) := by
  induction ps generalizing m with
  | nil => rfl
  | cons p ps ih =>
    show keysOf (insertPairs (insertMap m p.1 p.2) ps) = _
    rw [ih, keysOf_insertMap]
    rfl

theorem foldl_insertNew_nodup_mem {α : Type _} [DecidableEq α] (l : List α)
    (ks : List α) (h : ks.Nodup) :
    (l.foldl insertNew ks).Nodup ∧ ∀ a, a ∈ l.foldl insertNew ks ↔ a ∈ ks ∨ a ∈ l := by
  induction l generalizing ks with
  | nil => simpa using h
  | cons x xs ih =>
    have hx : (insertNew ks x).Nodup ∧ ∀ a, a ∈ insertNew ks x ↔ a ∈ ks ∨ a = x := by
      unfold insertNew
      by_cases hk : x ∈ ks
      · refine ⟨by simpa [hk] using h, fun a => ?_⟩
        simp only [if_pos hk]
        constructor
        · exact fun ha => Or.inl ha
        · rintro (ha | rfl)
          · exact ha
          · exact hk
      · refine ⟨?_, fun a => ?_⟩
        · simp [List.nodup_append, h, hk]
        · simp [if_neg hk]
    obtain ⟨hnd, hmem⟩ := hx
    obtain ⟨ihnd, ihmem⟩ := ih (insertNew ks x) hnd
    refine ⟨ihnd, fun a => ?_⟩
    rw [List.foldl_cons, ihmem a, hmem a]
    constructor
    · rintro ((ha | rfl) | ha)
      · exact Or.inl ha
      · exact Or.inr (List.mem_cons_self _ _)
      · exact Or.inr (List.mem_cons_of_mem _ ha)
    · rintro (ha | ha)
      · exact Or.inl (Or.inl ha)
      · rcases List.mem_cons.mp ha with rfl | ha
        · exact Or.inl (Or.inr rfl)
        · exact Or.inr ha

theorem length_foldl_insertNew {α : Type _} [DecidableEq α] (l : List α) :
    (l.foldl insertNew ([] : List α)).length = l.dedup.length := by
  obtain ⟨hnd, hmem⟩ := foldl_insertNew_nodup_mem l [] List.nodup_nil
  have h1 : (l.foldl insertNew ([] : List α)).toFinset = l.toFinset := by
    ext a
    simp only [List.mem_toFinset, hmem a, List.not_mem_nil, false_or]
  calc (l.foldl insertNew ([] : List α)).length
      = (l.foldl insertNew ([] : List α)).toFinset.card :=
        (List.toFinset_card_of_nodup hnd).symm
    _ = l.toFinset.card := by rw [h1]
    _ = l.dedup.length := List.card_toFinset l

/-- C8 counterexample: the files `01_hypo_features_table.csv` and
`1_hypo_features_table.csv` are distinct sources, both match the file-name
pattern, both parse successfully, and both carry the embedded frame index
1, so the resulting dict has a single entry although two sources parsed
successfully: the mapping does not contain one entry per successfully
parsed source. -/
theorem map_entries_not_one_per_ok_source :
    (frame_feature_map
        [⟨"01_hypo_features_table.csv", 1, .ok ["HB1"]⟩,
         ⟨"1_hypo_features_table.csv", 1, .ok ["AR2"]⟩]).map.length = 1 ∧
    (([⟨"01_hypo_features_table.csv", 1, .ok ["HB1"]⟩,
       ⟨"1_hypo_features_table.csv", 1, .ok ["AR2"]⟩] :
        List FeatureSource).filter (fun s => isOkSource s)).length = 2 ∧
    (1 : Nat) ≠ 2 := by
  refine ⟨?_, ?_, by decide⟩ <;> rfl

/-- C8 (amended): a parse failure of a single source appends exactly one
warning naming that source and the failure reason while every other source
is still processed (the dict equals the one built from the successfully
parsed sources alone), and the resulting mapping contains exactly one
entry per DISTINCT embedded frame index among the successfully parsed
sources (a later source with the same frame index overwrites the earlier
entry). -/
theorem loader_skips_failures (sources : List FeatureSource) :
    (frame_feature_map sources).warnings = sources.filterMap warnOf ∧
    (frame_feature_map sources).map =
      (frame_feature_map (sources.filter (fun s => isOkSource s))).map ∧
    (frame_feature_map sources).map.length =
      ((sources.filter (fun s => isOkSource s)).map FeatureSource.frame_id).dedup.length := by
  refine ⟨?_, ?_, ?_⟩
  · rw [frame_feature_map, loadAll_warnings]
    rfl
  · rw [frame_feature_map, loadAll_map, frame_feature_map, loadAll_map, okPair_filter_ok]
  · have hlen : (frame_feature_map sources).map.length =
        (keysOf (frame_feature_map sources).map).length := by
      rw [keysOf, List.length_map]
    rw [hlen, frame_feature_map, loadAll_map, keysOf_insertPairs, okPair_fst]
    have h0 : keysOf ([] : List (Int × String)) = [] := rfl
    rw [h0, length_foldl_insertNew]

theorem mem_dedupFirst {α : Type _} [DecidableEq α] {a : α} {l : List α} :
    a ∈ dedupFirst l ↔ a ∈ l := by
  have h := (foldl_insertNew_nodup_mem l [] List.nodup_nil).2 a
  simpa [dedupFirst] using h

theorem mem_feature_counts {rs : List FrameRecord} {e : CountRec}
    (he : e ∈ feature_counts rs) :
    ∃ s ∈ matchedSigs rs,
      e = { features := s, count := (matchedSigs rs).count s,
            percent := mkRat (100 * ((matchedSigs rs).count s : Int)) rs.length,
            length := s.length } := by
  have h1 := (List.perm_insertionSort (descBy CountRec.count) _).mem_iff.mp he
  obtain ⟨s, hs, rfl⟩ := List.mem_map.mp h1
  exact ⟨s, mem_dedupFirst.mp hs, rfl⟩

theorem matchedSigs_ne_dash {rs : List FrameRecord} {s : String}
    (hs : s ∈ matchedSigs rs) : s ≠ "-" := by
  obtain ⟨r, hr, rfl⟩ := List.mem_map.mp hs
  have h2 := (List.mem_filter.mp hr).2
  simpa [bne_iff_ne] using h2

theorem count_matchedSigs (rs : List FrameRecord) {s : String} (hs : s ≠ "-") :
    (matchedSigs rs).count s = (rs.filter (fun r => r.features == s)).length := by
  unfold matchedSigs
  rw [List.count, List.countP_map, List.countP_eq_length_filter,
    List.filter_filter]
  congr 1
  refine List.filter_congr (fun r _ => ?_)
  by_cases hr : r.features = s
  · simp [Function.comp, hr, bne_iff_ne, hs]
  · simp [Function.comp, hr]

theorem length_filter_add_length_filter_not {α : Type _} (l : List α) (p : α → Bool) :
    (l.filter p).length + (l.filter (fun a => !p a)).length = l.length := by
  induction l with
  | nil => rfl
  | cons x xs ih =>
    cases hx : p x <;> simp [List.filter_cons, hx] <;> omega

theorem sum_dedupFirst_count {α : Type _} [DecidableEq α] (l : List α) :
    ((dedupFirst l).map (fun a => l.count a)).sum = l.length := by
  obtain ⟨hnd, hmem⟩ := foldl_insertNew_nodup_mem l [] List.nodup_nil
  have hnd' : (dedupFirst l).Nodup := hnd
  have hts : (dedupFirst l).toFinset = l.toFinset := by
    ext a
    simpa [dedupFirst, List.mem_toFinset] using hmem a
  calc ((dedupFirst l).map (fun a => l.count a)).sum
      = (dedupFirst l).toFinset.sum (fun a => l.count a) :=
        (List.sum_toFinset _ hnd').symm
    _ = l.toFinset.sum (fun a => l.count a) := by rw [hts]
    _ = l.length := List.sum_toFinset_count_eq_length l

/-- C3: for every merged record set, the `Count` column of
`feature_counts` sums, together with the number of unmatched records
(those whose signature is the sentinel `"-"`), to `total_frames =
len(rmsd_df)` exactly (script lines 78-83). -/
theorem count_sum_add_unmatched_eq_total (rs : List FrameRecord) :
    ((feature_counts rs).map CountRec.count).sum +
      (rs.filter (fun r => r.features == "-")).length = rs.length := by
  have hperm : ((feature_counts rs).map CountRec.count).sum =
      (((dedupFirst (matchedSigs rs)).map (fun s =>
        ({ features := s, count := (matchedSigs rs).count s,
           percent := mkRat (100 * ((matchedSigs rs).count s : Int)) rs.length,
           length := s.length } : CountRec))).map CountRec.count).sum :=
    ((List.perm_insertionSort (descBy CountRec.count) _).map CountRec.count).sum_eq
  rw [hperm, List.map_map]
  have hcomp : (CountRec.count ∘ fun s =>
      ({ features := s, count := (matchedSigs rs).count s,
         percent := mkRat (100 * ((matchedSigs rs).count s : Int)) rs.length,
         length := s.length } : CountRec)) = fun s => (matchedSigs rs).count s := rfl
  rw [hcomp, sum_dedupFirst_count]
  have hlen : (matchedSigs rs).length = (rs.filter (fun r => r.features != "-")).length := by
    rw [matchedSigs, List.length_map]
  rw [hlen]
  have h2 := length_filter_add_length_filter_not rs (fun r => r.features != "-")
  have h3 : rs.filter (fun a => !(a.features != "-")) =
      rs.filter (fun r => r.features == "-") := by
    refine List.filter_congr (fun r _ => ?_)
    simp [bne]
  rw [h3] at h2
  exact h2

/-- C4: for every `feature_counts` row, `Percent` equals
`100 * Count / total_frames` where `total_frames` is the length of the
whole merged record set, unmatched frames included (script lines 81-84);
moreover `Count` is the number of records carrying that signature, and
counted signatures are never the unmatched sentinel. -/
theorem percent_eq_count_div_total_frames (rs : List FrameRecord) (e : CountRec)
    (he : e ∈ feature_counts rs) :
    e.percent = 100 * (e.count : ℚ) / (rs.length : ℚ) ∧
    e.count = (rs.filter (fun r => r.features == e.features)).length ∧
    e.features ≠ "-" := by
  obtain ⟨s, hs, rfl⟩ := mem_feature_counts he
  have hne : s ≠ "-" := matchedSigs_ne_dash hs
  refine ⟨?_, count_matchedSigs rs hne, hne⟩
  show mkRat (100 * ((matchedSigs rs).count s : Int)) rs.length = _
  rw [Rat.mkRat_eq_divInt, Rat.divInt_eq_div]
  push_cast
  ring

/-- Witness for `percent_eq_count_div_total_frames` at a concrete record set. -/
theorem percent_eq_count_div_total_frames_witness :
    ((⟨"HB", 1, 100, 2⟩ : CountRec)).percent =
      100 * (((⟨"HB", 1, 100, 2⟩ : CountRec)).count : ℚ) /
        (([⟨1, 7, "HB"⟩] : List FrameRecord).length : ℚ) ∧
    ((⟨"HB", 1, 100, 2⟩ : CountRec)).count =
      (([⟨1, 7, "HB"⟩] : List FrameRecord).filter
        (fun r => r.features == ((⟨"HB", 1, 100, 2⟩ : CountRec)).features)).length ∧
    ((⟨"HB", 1, 100, 2⟩ : CountRec)).features ≠ "-" :=
  percent_eq_count_div_total_frames [⟨1, 7, "HB"⟩] ⟨"HB", 1, 100, 2⟩ (by decide)

theorem minRmsdFirst_eq_none {l : List FrameRecord} (h : minRmsdFirst l = none) :
    l = [] := by
  cases l with
  | nil => rfl
  | cons a t =>
    cases ht : minRmsdFirst t with
    | none => simp [minRmsdFirst, ht] at h
    | some b =>
      by_cases hb : b.rmsd < a.rmsd <;> simp [minRmsdFirst, ht, hb] at h

theorem minRmsdFirst_spec (l : List FrameRecord) (m : FrameRecord)
    (h : minRmsdFirst l = some m) :
    ∃ i : Fin l.length, l.get i = m ∧ (∀ r ∈ l, m.rmsd ≤ r.rmsd) ∧
      ∀ j : Fin l.length, (j : ℕ) < (i : ℕ) → m.rmsd < (l.get j).rmsd := by
  induction l generalizing m with
  | nil => simp [minRmsdFirst] at h
  | cons a t ih =>
    cases ht : minRmsdFirst t with
    | none =>
      have ht0 : t = [] := minRmsdFirst_eq_none ht
      subst ht0
      have hm : a = m := by simpa [minRmsdFirst, ht] using h
      subst hm
      refine ⟨⟨0, by simp⟩, rfl, ?_, ?_⟩
      · intro r hr
        rcases List.mem_singleton.mp hr with rfl
        exact le_refl _
      · intro j hj
        exact absurd hj (Nat.not_lt_zero _)
    | some b =>
      obtain ⟨i', hget, hmin, hfirst⟩ := ih b ht
      by_cases hb : b.rmsd < a.rmsd
      · have hm : b = m := by simpa [minRmsdFirst, ht, hb] using h
        subst hm
        refine ⟨⟨i'.val + 1, by simp⟩, ?_, ?_, ?_⟩
        · simpa [List.get] using hget
        · intro r hr
          rcases List.mem_cons.mp hr with rfl | hr
          · exact le_of_lt hb
          · exact hmin r hr
        · intro j hj
          match j with
          | ⟨0, h0⟩ => simpa [List.get] using hb
          | ⟨j' + 1, hj'⟩ =>
            have hlt : j' < i'.val := Nat.lt_of_succ_lt_succ hj
            simpa [List.get] using hfirst ⟨j', Nat.lt_of_succ_lt_succ hj'⟩ hlt
      · have hm : a = m := by simpa [minRmsdFirst, ht, hb] using h
        subst hm
        refine ⟨⟨0, by simp⟩, rfl, ?_, ?_⟩
        · intro r hr
          rcases List.mem_cons.mp hr with rfl | hr
          · exact le_refl _
          · exact le_trans (le_of_not_lt hb) (hmin r hr)
        · intro j hj
          exact absurd hj (Nat.not_lt_zero _)

/-- C1 counterexample: a single matched record with RMSD `0.1234` forms a
group whose exact minimum RMSD is `0.1234`, yet `summary_records` reports
`Lowest_RMSD = 0.123` (`round(min_row['RMSD'], 3)`, script line 98): the
reported value is NOT the exact minimum, rounding is applied. -/
theorem lowest_rmsd_is_rounded_cx :
    (summary_records [⟨1, mkRat 1234 10000, "HB"⟩]).map SummaryRec.lowest_rmsd =
      [mkRat 123 1000] ∧
    (subsetRows [⟨1, mkRat 1234 10000, "HB"⟩] "HB").map FrameRecord.rmsd =
      [mkRat 1234 10000] ∧
    mkRat 123 1000 ≠ mkRat 1234 10000 := by
  refine ⟨rfl, rfl, by decide⟩

/-- C1 (amended): for every summary row, the group's minimum RMSD is
computed exactly (a member attains it and is a lower bound for every
member), and the reported `Lowest_RMSD` equals that exact minimum rounded
to 3 decimal places (script lines 95-98). -/
theorem lowest_rmsd_round3_of_true_min (rs : List FrameRecord) (g : SummaryRec)
    (hg : g ∈ summary_records rs) :
    ∃ m ∈ subsetRows rs g.features,
      (∀ r ∈ subsetRows rs g.features, m.rmsd ≤ r.rmsd) ∧
      g.lowest_rmsd = pyRound m.rmsd 3 := by
  obtain ⟨e, he, heq⟩ := List.mem_filterMap.mp hg
  obtain ⟨m, hm, hmk⟩ := Option.map_eq_some'.mp heq
  subst hmk
  obtain ⟨i, hget, hmin, _⟩ := minRmsdFirst_spec _ m hm
  refine ⟨m, ?_, ?_, rfl⟩
  · show m ∈ subsetRows rs e.features
    exact hget ▸ List.get_mem _ _ _
  · show ∀ r ∈ subsetRows rs e.features, m.rmsd ≤ r.rmsd
    exact hmin

/-- Witness for `lowest_rmsd_round3_of_true_min` at a concrete record set. -/
theorem lowest_rmsd_round3_of_true_min_witness :
    ∃ m ∈ subsetRows [⟨1, 7, "HB"⟩] ((⟨"HB", 7, 1, 1, 2, 100⟩ : SummaryRec)).features,
      (∀ r ∈ subsetRows [⟨1, 7, "HB"⟩] ((⟨"HB", 7, 1, 1, 2, 100⟩ : SummaryRec)).features,
        m.rmsd ≤ r.rmsd) ∧
      ((⟨"HB", 7, 1, 1, 2, 100⟩ : SummaryRec)).lowest_rmsd = pyRound m.rmsd 3 :=
  lowest_rmsd_round3_of_true_min [⟨1, 7, "HB"⟩] ⟨"HB", 7, 1, 1, 2, 100⟩ (by decide)

/-- C5: for every summary row, `Frame` is the `frame_id` of a member of
the group attaining the group's minimal RMSD, and on ties the FIRST member
in table iteration order is chosen: every strictly earlier member has a
strictly larger RMSD (`idxmin`, script lines 92-99). -/
theorem representative_frame_first_min (rs : List FrameRecord) (g : SummaryRec)
    (hg : g ∈ summary_records rs) :
    ∃ i : Fin (subsetRows rs g.features).length,
      g.frame = ((subsetRows rs g.features).get i).frame_id ∧
      (∀ r ∈ subsetRows rs g.features,
        ((subsetRows rs g.features).get i).rmsd ≤ r.rmsd) ∧
      ∀ j : Fin (subsetRows rs g.features).length, (j : ℕ) < (i : ℕ) →
        ((subsetRows rs g.features).get i).rmsd <
          ((subsetRows rs g.features).get j).rmsd := by
  obtain ⟨e, he, heq⟩ := List.mem_filterMap.mp hg
  obtain ⟨m, hm, hmk⟩ := Option.map_eq_some'.mp heq
  subst hmk
  obtain ⟨i, hget, hmin, hfirst⟩ := minRmsdFirst_spec _ m hm
  refine ⟨i, ?_, ?_, ?_⟩
  · show m.frame_id = ((subsetRows rs e.features).get i).frame_id
    rw [hget]
  · show ∀ r ∈ subsetRows rs e.features, ((subsetRows rs e.features).get i).rmsd ≤ r.rmsd
    rw [hget]
    exact hmin
  · show ∀ j : Fin (subsetRows rs e.features).length, (j : ℕ) < (i : ℕ) →
      ((subsetRows rs e.features).get i).rmsd < ((subsetRows rs e.features).get j).rmsd
    rw [hget]
    exact hfirst

/-- Witness for `representative_frame_first_min` at a concrete record set. -/
theorem representative_frame_first_min_witness :
    ∃ i : Fin (subsetRows [⟨1, 7, "HB"⟩]
        ((⟨"HB", 7, 1, 1, 2, 100⟩ : SummaryRec)).features).length,
      ((⟨"HB", 7, 1, 1, 2, 100⟩ : SummaryRec)).frame =
        ((subsetRows [⟨1, 7, "HB"⟩]
          ((⟨"HB", 7, 1, 1, 2, 100⟩ : SummaryRec)).features).get i).frame_id ∧
      (∀ r ∈ subsetRows [⟨1, 7, "HB"⟩] ((⟨"HB", 7, 1, 1, 2, 100⟩ : SummaryRec)).features,
        ((subsetRows [⟨1, 7, "HB"⟩]
          ((⟨"HB", 7, 1, 1, 2, 100⟩ : SummaryRec)).features).get i).rmsd ≤ r.rmsd) ∧
      ∀ j : Fin (subsetRows [⟨1, 7, "HB"⟩]
          ((⟨"HB", 7, 1, 1, 2, 100⟩ : SummaryRec)).features).length,
        (j : ℕ) < (i : ℕ) →
        ((subsetRows [⟨1, 7, "HB"⟩]
          ((⟨"HB", 7, 1, 1, 2, 100⟩ : SummaryRec)).features).get i).rmsd <
          ((subsetRows [⟨1, 7, "HB"⟩]
            ((⟨"HB", 7, 1, 1, 2, 100⟩ : SummaryRec)).features).get j).rmsd :=
  representative_frame_first_min [⟨1, 7, "HB"⟩] ⟨"HB", 7, 1, 1, 2, 100⟩ (by decide)

/-- C9: the visualisation selection `plot_df` (script line 135) contains
no group whose `Length` is in `exclude_lengths`, contains at most `top_n`
rows, and is ordered by `Percent` descending. -/
theorem plot_df_selection_spec (rs : List FrameRecord) :
    (∀ g ∈ plot_df rs, g.length ∉ exclude_lengths) ∧
    (plot_df rs).length ≤ top_n ∧
    List.Pairwise (fun a b => b.percent ≤ a.percent) (plot_df rs) := by
  have hsorted := List.sorted_insertionSort (descBy SummaryRec.percent)
    ((summary_df rs).filter (fun g => !(exclude_lengths.contains g.length)))
  refine ⟨?_, ?_, ?_⟩
  · intro g hgp
    have hg1 : g ∈ List.insertionSort (descBy SummaryRec.percent)
        ((summary_df rs).filter (fun g => !(exclude_lengths.contains g.length))) :=
      List.mem_of_mem_take hgp
    have hg2 := (List.perm_insertionSort (descBy SummaryRec.percent) _).mem_iff.mp hg1
    have hg3 := (List.mem_filter.mp hg2).2
    simpa using hg3
  · rw [plot_df, nlargestPercent, List.length_take]
    exact Nat.min_le_left _ _
  · exact List.Pairwise.sublist (List.take_sublist _ _) hsorted
